import Mathlib

/-!
Shallow embedding of the `Attendance-Report` repository
(`src/AttendanceReport.py` and `src/AttendanceReport_alternate.py`).

Modelling conventions:
* JSON date strings `"YYYY-MM-DD"` are modelled as parsed `Date` structures
  (the strings are canonical, so string equality coincides with `Date`
  equality); `"HH:MM:SS"` time strings are modelled as seconds since
  midnight (`Time := Nat`).
* Python floats (`max_temp`, hour durations) are modelled as `ℚ`.
* A Python exception (e.g. `strptime(None, ...)` raising `TypeError`, or
  `ZeroDivisionError`) is modelled by returning `none` from an
  `Option`-valued function.
* Python `set` objects have unspecified iteration order; `list(s)` over a
  set built by inserting elements in a known order is modelled as the list
  of elements deduplicated keeping first occurrences (`dedupFirst`).
  Every property proved about set contents is order-independent.
* `datetime.date` subtraction is modelled by the proleptic-Gregorian
  day-number function `toOrdinal` (rata-die style); `isocalendar().week`
  is transcribed from CPython's `_isoweek1monday`/`isocalendar`.
-/

namespace AttendanceReport

/-- A calendar date, as parsed from a canonical `"YYYY-MM-DD"` string. -/
structure Date where
  year : Nat
  month : Nat
  day : Nat
deriving DecidableEq, Repr

/-- A time of day in seconds since midnight, as parsed from `"HH:MM:SS"`. -/
abbrev Time := Nat

/-- Seconds since midnight of `h:m:s`. -/
def timeOfHMS (h m s : Nat) : Time := h * 3600 + m * 60 + s

/-- One row of the attendance JSON file: `{employee_record_id, date,
clock_in, clock_out}`, where the clock fields may be `null` (`none`). -/
structure AttendanceRow where
  employee_record_id : Nat
  date : Date
  clock_in : Option Time
  clock_out : Option Time
deriving DecidableEq, Repr

/-- One row of the weather dataset: `{country, date, condition, max_temp}`. -/
structure WeatherRow where
  country : String
  date : Date
  condition : String
  max_temp : ℚ
deriving DecidableEq, Repr

/-- One row of the events dataset: `{country, event_date, event_name}`. -/
structure EventRow where
  country : String
  event_date : Date
  event_name : String
deriving DecidableEq, Repr

/-- One employee of the roster file. -/
structure Employee where
  record_id : Nat
  name : String
  work_id_number : Nat
  email_address : String
  country : String
  phone_number : String
deriving DecidableEq, Repr

/-- The `event_reason` dictionary `{country, event_name, event_date}` built
by `check_dates_against_events` (the date is kept as a `Date`; each Python
implementation serializes it to its own string format only on output). -/
structure EventReason where
  country : String
  event_name : String
  event_date : Date
deriving DecidableEq, Repr

/-- The per-employee output record of the pipeline. -/
structure WaywardReport where
  record_id : Nat
  name : String
  work_id_number : Nat
  email_address : String
  country : String
  phone_number : String
  average_hours_per_week : ℚ
  events : List EventReason
deriving DecidableEq, Repr

/-! ### Proleptic Gregorian calendar (Python `datetime.date` arithmetic) -/

/-- Gregorian leap-year test. -/
def isLeap (y : Nat) : Bool := y % 4 == 0 && (y % 100 != 0 || y % 400 == 0)

/-- Number of days in month `m` of year `y`. -/
def daysInMonth (y m : Nat) : Nat :=
  if m = 2 then (if isLeap y then 29 else 28)
  else if m = 4 ∨ m = 6 ∨ m = 9 ∨ m = 11 then 30
  else 31

/-- A structurally valid proleptic-Gregorian date with year ≥ 1 (the range
`datetime.date` supports). -/
def ValidDate (d : Date) : Prop :=
  1 ≤ d.year ∧ 1 ≤ d.month ∧ d.month ≤ 12 ∧ 1 ≤ d.day ∧ d.day ≤ daysInMonth d.year d.month

instance : DecidablePred ValidDate := fun d => by
  unfold ValidDate; infer_instance

/-- The calendar day immediately after `d`. -/
def nextDay (d : Date) : Date :=
  if d.day < daysInMonth d.year d.month then ⟨d.year, d.month, d.day + 1⟩
  else if d.month < 12 then ⟨d.year, d.month + 1, 1⟩
  else ⟨d.year + 1, 1, 1⟩

/-- Day number of a date (rata-die style; shifted so that March is the
first month of the internal year).  `toOrdinal ⟨1,1,1⟩ = 306`, and Python's
`date.toordinal` equals `toOrdinal - 305`.  Differences of `toOrdinal`
model differences of `datetime.date` objects in days. -/
def toOrdinal (d : Date) : Nat :=
  let y := if d.month ≤ 2 then d.year - 1 else d.year
  let mp := if d.month ≤ 2 then d.month + 9 else d.month - 3
  365 * y + y / 4 - y / 100 + y / 400 + (153 * mp + 2) / 5 + d.day - 1

/-- `(a - b).days` for two `datetime.date` values. -/
def dateDiff (a b : Date) : Int := (toOrdinal a : Int) - (toOrdinal b : Int)

/-- CPython `_isoweek1monday(year)`: Python ordinal of the Monday starting
ISO week 1 of `year`. -/
def isoweek1monday (year : Nat) : Int :=
  let firstday : Int := (toOrdinal ⟨year, 1, 1⟩ : Int) - 305
  let firstweekday := (firstday + 6) % 7
  let week1monday := firstday - firstweekday
  if 3 < firstweekday then week1monday + 7 else week1monday

/-- CPython `date.isocalendar().week`. -/
def isoWeek (d : Date) : Nat :=
  let today : Int := (toOrdinal d : Int) - 305
  let week := Int.fdiv (today - isoweek1monday d.year) 7
  if week < 0 then
    (Int.fdiv (today - isoweek1monday (d.year - 1)) 7 + 1).toNat
  else if 52 ≤ week ∧ isoweek1monday (d.year + 1) ≤ today then 1
  else (week + 1).toNat

/-! ### Python `set` as a first-occurrence-deduplicated list -/

/-- Auxiliary: drop elements already in `seen`, keep first occurrences. -/
def dedupFirstAux {α : Type} [DecidableEq α] (seen : List α) : List α → List α
  | [] => []
  | a :: rest =>
    if a ∈ seen then dedupFirstAux seen rest
    else a :: dedupFirstAux (a :: seen) rest

/-- The elements of `l` with duplicates removed, keeping the first
occurrence of each value, in order of first occurrence. -/
def dedupFirst {α : Type} [DecidableEq α] (l : List α) : List α :=
  dedupFirstAux [] l

/-! ### `src/AttendanceReport.py` — the hand-rolled pipeline -/

/-- `check_if_date_is_in_year(date_val, year)`: the source splits the
string on `'-'` and compares the first component as an `int`; on a
canonical date string that is the year field. -/
def check_if_date_is_in_year (date_val : Date) (year : Nat) : Bool :=
  date_val.year == year

/-- Loop of `remove_duplicate_events`, with the `unique_dates` set
accumulated so far. -/
def remove_duplicate_events_aux (unique_dates : List Date) :
    List EventReason → List EventReason
  | [] => []
  | event :: rest =>
    if event.event_date ∈ unique_dates then
      remove_duplicate_events_aux unique_dates rest
    else
      event :: remove_duplicate_events_aux (event.event_date :: unique_dates) rest

/-- `remove_duplicate_events(event_data)`: keep the first event carrying
each distinct `event_date`, drop later ones. -/
def remove_duplicate_events (event_data : List EventReason) : List EventReason :=
  remove_duplicate_events_aux [] event_data

/-- `calculate_total_hours(start_time, stop_time)`:
`(stop - start).total_seconds() / 3600` (may be negative). -/
def calculate_total_hours (start_time stop_time : Time) : ℚ :=
  ((stop_time : ℚ) - (start_time : ℚ)) / 3600

/-- The `total_hours` computed by one iteration of the loop in
`calculate_average_hours_per_week`: the clocked duration when both clock
fields are present, otherwise `0`. -/
def rowDuration (attendance : AttendanceRow) : ℚ :=
  match attendance.clock_in, attendance.clock_out with
  | some s, some e => calculate_total_hours s e
  | _, _ => 0

/-- `total_hours_per_week[week_key] += total_hours` on a Python dict
modelled as an insertion-ordered association list. -/
def addToWeek (tbl : List (Nat × ℚ)) (week_key : Nat) (v : ℚ) : List (Nat × ℚ) :=
  match tbl with
  | [] => [(week_key, v)]
  | (k, v') :: rest =>
    if k = week_key then (k, v' + v) :: rest
    else (k, v') :: addToWeek rest week_key v

/-- The `total_hours_per_week` dict after the loop of
`calculate_average_hours_per_week`. -/
def weekTable (attendance_data : List AttendanceRow) : List (Nat × ℚ) :=
  attendance_data.foldl
    (fun tbl attendance => addToWeek tbl (isoWeek attendance.date) (rowDuration attendance)) []

/-- `calculate_average_hours_per_week(attendance_data)`: sum of the weekly
totals divided by the number of weeks; `none` models the uncaught
`ZeroDivisionError` when the dict is empty. -/
def calculate_average_hours_per_week (attendance_data : List AttendanceRow) : Option ℚ :=
  let tbl := weekTable attendance_data
  if tbl.length = 0 then none
  else some ((tbl.map Prod.snd).sum / (tbl.length : ℚ))

/-- `get_employee_attendance_data(record_id, employee_attendance_data, year)`. -/
def get_employee_attendance_data (record_id : Nat)
    (employee_attendance_data : List AttendanceRow) (year : Nat) : List AttendanceRow :=
  match employee_attendance_data with
  | [] => []
  | emp :: rest =>
    if emp.employee_record_id == record_id then
      if check_if_date_is_in_year emp.date year then
        emp :: get_employee_attendance_data record_id rest year
      else get_employee_attendance_data record_id rest year
    else get_employee_attendance_data record_id rest year

/-- `start_time = time(8, 15, 0)` in `check_employee_times`. -/
def start_time : Time := timeOfHMS 8 15 0

/-- `end_time = time(16, 00, 00)` in `check_employee_times`. -/
def end_time : Time := timeOfHMS 16 0 0

/-- `check_employee_times(employee_attendance_data)`: collect the dates of
delinquent rows.  A row with exactly one of the clock fields `null`
reaches `strptime(None, ...)`, which raises; this is the `none` result. -/
def check_employee_times : List AttendanceRow → Option (List Date)
  | [] => some []
  | attendance :: rest =>
    match attendance.clock_in, attendance.clock_out with
    | none, none => (check_employee_times rest).map (attendance.date :: ·)
    | some clock_in, some clock_out =>
      if start_time < clock_in ∨ clock_out < end_time then
        (check_employee_times rest).map (attendance.date :: ·)
      else check_employee_times rest
    | _, _ => none

/-- The bad-weather condition list of `check_dates_against_events`. -/
def severeConditions : List String := ["hail", "thunderstorm", "blizzard", "hurricane"]

/-- Filter of the `weather_set` comprehension in
`check_dates_against_events`. -/
def isSevereWeather (country : String) (weather : WeatherRow) : Bool :=
  weather.country == country && check_if_date_is_in_year weather.date 2023 &&
    (severeConditions.contains weather.condition || decide ((40 : ℚ) < weather.max_temp))

/-- The `weather_set` of `check_dates_against_events` (a Python set of
date strings, modelled as a deduplicated list). -/
def weather_set (weather_data : List WeatherRow) (country : String) : List Date :=
  dedupFirst ((weather_data.filter (isSevereWeather country)).map (fun w => w.date))

/-- The `event_set` of `check_dates_against_events`: `(event_date,
event_name)` pairs for the employee's country in 2023. -/
def event_set (events_data : List EventRow) (country : String) : List (Date × String) :=
  dedupFirst ((events_data.filter (fun event =>
    event.country == country && check_if_date_is_in_year event.event_date 2023)).map
      (fun event => (event.event_date, event.event_name)))

/-- `no_weather_excuse_list = list(set(poor) - weather_set)`. -/
def no_weather_excuse_list (weather_data : List WeatherRow) (poor : List Date)
    (country : String) : List Date :=
  (dedupFirst poor).filter (fun d => !((weather_set weather_data country).contains d))

/-- `difference in [timedelta(days=-1), timedelta(days=0), timedelta(days=1)]`. -/
def inWindow (event_date no_excuse_date : Date) : Bool :=
  dateDiff event_date no_excuse_date == -1 || dateDiff event_date no_excuse_date == 0 ||
    dateDiff event_date no_excuse_date == 1

/-- Inner loop of `check_dates_against_events`: the `event_reason`
dictionaries appended while processing one `no_excuse_date`. -/
def candidatesFor (events : List (Date × String)) (country : String)
    (no_excuse_date : Date) : List EventReason :=
  events.filterMap (fun p =>
    if inWindow p.1 no_excuse_date then some ⟨country, p.2, p.1⟩ else none)

/-- The full `event_reason_list` before deduplication. -/
def event_reason_list (weather_data : List WeatherRow) (events_data : List EventRow)
    (poor : List Date) (country : String) : List EventReason :=
  (no_weather_excuse_list weather_data poor country).flatMap
    (candidatesFor (event_set events_data country) country)

/-- `check_dates_against_events(weather_data, events_data,
poor_employee_attendance_data, country)`. -/
def check_dates_against_events (weather_data : List WeatherRow) (events_data : List EventRow)
    (poor : List Date) (country : String) : List EventReason :=
  remove_duplicate_events (event_reason_list weather_data events_data poor country)

/-- The `employee_information` dictionary built in
`identify_delinquent_employees`. -/
def mkReport (employee : Employee) (avg : ℚ) (events : List EventReason) : WaywardReport :=
  ⟨employee.record_id, employee.name, employee.work_id_number, employee.email_address,
    employee.country, employee.phone_number, avg, events⟩

/-- One iteration of the employee loop of `identify_delinquent_employees`:
`some none` when the employee is below the threshold, `some (some r)` when
a report is emitted, `none` when the iteration raises. -/
def processEmployee (weather_data : List WeatherRow) (events_data : List EventRow)
    (attendance_data : List AttendanceRow) (employee : Employee) :
    Option (Option WaywardReport) := do
  let att := get_employee_attendance_data employee.record_id attendance_data 2023
  let poor ← check_employee_times att
  let xref := check_dates_against_events weather_data events_data poor employee.country
  let avg ← calculate_average_hours_per_week att
  pure (if 3 < xref.length then some (mkReport employee avg xref) else none)

/-- `identify_delinquent_employees`, given already-loaded datasets (the
file reads and the two GET requests are I/O glue outside the model). -/
def identify_delinquent_employees (weather_data : List WeatherRow)
    (events_data : List EventRow) (employee_data : List Employee)
    (attendance_data : List AttendanceRow) : Option (List WaywardReport) :=
  match employee_data with
  | [] => some []
  | employee :: rest => do
    let r ← processEmployee weather_data events_data attendance_data employee
    let l ← identify_delinquent_employees weather_data events_data rest attendance_data
    pure (r.toList ++ l)

/-! ### `src/AttendanceReport_alternate.py` — the pandas pipeline

Dataframes are modelled as lists of rows.  The in-place column mutations
(`df['date'] = pd.to_datetime(...)`, etc.) are modelled by each function
re-deriving what it needs from immutable inputs (the charitable pure
reading of the tabular code); comparisons of a `NaT`/missing clock value
with a time threshold are modelled as `false`. -/

namespace Alt

/-- `get_employee_attendance_data(df, record_id, year)`:
`df[(df['employee_record_id'] == record_id) & (df['date'].dt.year == year)]`. -/
def get_employee_attendance_data (df : List AttendanceRow) (record_id : Nat)
    (year : Nat) : List AttendanceRow :=
  df.filter (fun r => r.employee_record_id == record_id && r.date.year == year)

/-- `check_employee_times(df)`: late/early rows concatenated with rows
having a missing clock field. -/
def check_employee_times (df : List AttendanceRow) : List AttendanceRow :=
  let delinquent_days := df.filter (fun r =>
    (match r.clock_in with
     | some t => decide (start_time < t)
     | none => false) ||
    (match r.clock_out with
     | some t => decide (t < end_time)
     | none => false))
  let absent_days := df.filter (fun r => r.clock_in.isNone || r.clock_out.isNone)
  delinquent_days ++ absent_days

/-- The `filtered_weather_df` of `check_dates_against_events`.  Note:
unlike the hand-rolled version, there is no year-2023 restriction. -/
def filtered_weather_df (weather_df : List WeatherRow) (country : String) : List WeatherRow :=
  weather_df.filter (fun w =>
    w.country == country &&
      (severeConditions.contains w.condition || decide ((40 : ℚ) < w.max_temp)))

/-- The `common_dates` of `check_dates_against_events`. -/
def common_dates (weather_df : List WeatherRow) (attendance_df : List AttendanceRow)
    (country : String) : List Date :=
  (attendance_df.map (fun r => r.date)).filter
    (fun d => ((filtered_weather_df weather_df country).map (fun w => w.date)).contains d)

/-- The weather-filtered `attendance_df` of `check_dates_against_events`. -/
def attendance2 (weather_df : List WeatherRow) (attendance_df : List AttendanceRow)
    (country : String) : List AttendanceRow :=
  attendance_df.filter
    (fun r => !((common_dates weather_df attendance_df country).contains r.date))

/-- The `filtered_events_df` of `check_dates_against_events`. -/
def filtered_events_df (events_df : List EventRow) (country : String) : List EventRow :=
  events_df.filter (fun e => e.country == country && e.event_date.year == 2023)

/-- The `event_info` candidate list of `check_dates_against_events`. -/
def event_info (weather_df : List WeatherRow) (events_df : List EventRow)
    (attendance_df : List AttendanceRow) (country : String) : List EventReason :=
  (attendance2 weather_df attendance_df country).flatMap (fun r =>
    (filtered_events_df events_df country).filterMap (fun e =>
      if inWindow e.event_date r.date then
        some ⟨country, e.event_name, e.event_date⟩
      else none))

/-- `check_dates_against_events(weather_df, events_df, attendance_df, country)`.
The emitted `event_date` is later serialized with `strftime('%Y.%m.%d')`. -/
def check_dates_against_events (weather_df : List WeatherRow) (events_df : List EventRow)
    (attendance_df : List AttendanceRow) (country : String) : List EventReason :=
  remove_duplicate_events (event_info weather_df events_df attendance_df country)

/-- `calculate_average_hours_per_week(attendance_df)`: group the per-row
durations by ISO week number, sum per group, and take the mean of the
group sums.  The mean of an empty series is `NaN`, modelled as `none`. -/
def calculate_average_hours_per_week (attendance_df : List AttendanceRow) : Option ℚ :=
  let week_keys := dedupFirst (attendance_df.map (fun r => isoWeek r.date))
  if week_keys.length = 0 then none
  else
    some ((week_keys.map (fun k =>
      ((attendance_df.filter (fun r => isoWeek r.date == k)).map rowDuration).sum)).sum /
        (week_keys.length : ℚ))

/-- One iteration of the employee loop of `analyze_data`. -/
def processEmployee (weather_df : List WeatherRow) (events_df : List EventRow)
    (attendance_df : List AttendanceRow) (employee : Employee) :
    Option (Option WaywardReport) := do
  let att := get_employee_attendance_data attendance_df employee.record_id 2023
  let poor := check_employee_times att
  let xref := check_dates_against_events weather_df events_df poor employee.country
  let avg ← calculate_average_hours_per_week att
  pure (if 3 < xref.length then some (mkReport employee avg xref) else none)

end Alt

/-! ### Serialization of the output JSON

The hand-rolled pipeline writes each `event_date` as its original
`"YYYY-MM-DD"` string; the alternate pipeline writes
`event_date.strftime('%Y.%m.%d')`. -/

theorem dedupFirstAux_sublist {α : Type} [DecidableEq α] (seen l : List α) :
    (dedupFirstAux seen l).Sublist l := by
  induction l generalizing seen with
  | nil => simp [dedupFirstAux]
  | cons a rest ih =>
    simp only [dedupFirstAux]
    split
    · exact (ih seen).cons a
    · exact (ih (a :: seen)).cons₂ a

theorem mem_dedupFirstAux {α : Type} [DecidableEq α] {seen l : List α} {x : α} :
    x ∈ dedupFirstAux seen l ↔ x ∈ l ∧ x ∉ seen := by
  induction l generalizing seen with
  | nil => simp [dedupFirstAux]
  | cons a rest ih =>
    simp only [dedupFirstAux]
    split
    · rename_i h
      rw [ih]
      simp only [List.mem_cons]
      constructor
      · rintro ⟨hm, hs⟩; exact ⟨Or.inr hm, hs⟩
      · rintro ⟨hm | hm, hs⟩
        · exact absurd (hm ▸ h) hs
        · exact ⟨hm, hs⟩
    · rename_i h
      simp only [List.mem_cons, ih, List.mem_cons, not_or]
      constructor
      · rintro (rfl | ⟨hm, hne, hs⟩)
        · exact ⟨Or.inl rfl, h⟩
        · exact ⟨Or.inr hm, hs⟩
      · rintro ⟨rfl | hm, hs⟩
        · exact Or.inl rfl
        · by_cases hx : x = a
          · exact Or.inl hx
          · exact Or.inr ⟨hm, hx, hs⟩

theorem mem_dedupFirst {α : Type} [DecidableEq α] {l : List α} {x : α} :
    x ∈ dedupFirst l ↔ x ∈ l := by
  simp [dedupFirst, mem_dedupFirstAux]

theorem remove_duplicate_events_aux_sublist (seen : List Date) (l : List EventReason) :
    (remove_duplicate_events_aux seen l).Sublist l := by
  induction l generalizing seen with
  | nil => simp [remove_duplicate_events_aux]
  | cons e rest ih =>
    simp only [remove_duplicate_events_aux]
    split
    · exact (ih seen).cons e
    · exact (ih (e.event_date :: seen)).cons₂ e

theorem remove_duplicate_events_aux_dates_nodup (seen : List Date) (l : List EventReason) :
    ((remove_duplicate_events_aux seen l).map (fun er => er.event_date)).Nodup ∧
      ∀ er ∈ remove_duplicate_events_aux seen l, er.event_date ∉ seen := by
  induction l generalizing seen with
  | nil => simp [remove_duplicate_events_aux]
  | cons e rest ih =>
    simp only [remove_duplicate_events_aux]
    split
    · exact ih seen
    · rename_i hmem
      obtain ⟨hnd, hseen⟩ := ih (e.event_date :: seen)
      refine ⟨List.Nodup.cons (fun hx => ?_) hnd, fun er her => ?_⟩
      · obtain ⟨er, her, hdate⟩ := List.mem_map.mp hx
        exact hseen er her (hdate ▸ List.mem_cons_self _ _)
      · rcases List.mem_cons.mp her with rfl | her
        · exact hmem
        · intro hs
          exact hseen er her (List.mem_cons_of_mem _ hs)

theorem mem_remove_duplicate_events_aux {seen : List Date} {l : List EventReason}
    {er : EventReason} :
    er ∈ remove_duplicate_events_aux seen l ↔
      er.event_date ∉ seen ∧
        l.find? (fun x => x.event_date == er.event_date) = some er := by
  induction l generalizing seen with
  | nil => simp [remove_duplicate_events_aux]
  | cons e rest ih =>
    simp only [remove_duplicate_events_aux]
    by_cases hmem : e.event_date ∈ seen
    · rw [if_pos hmem, ih]
      by_cases hdate : e.event_date = er.event_date
      · constructor
        · rintro ⟨hs, _⟩; exact absurd (hdate ▸ hmem) hs
        · rintro ⟨hs, _⟩; exact absurd (hdate ▸ hmem) hs
      · rw [List.find?_cons_of_neg _ (by simp [hdate])]
    · rw [if_neg hmem, List.mem_cons, ih]
      by_cases hdate : e.event_date = er.event_date
      · rw [List.find?_cons_of_pos _ (by simp [hdate])]
        constructor
        · rintro (rfl | ⟨hs, _⟩)
          · exact ⟨hmem, rfl⟩
          · exact absurd
              (show er.event_date ∈ e.event_date :: seen by
                rw [← hdate]; exact List.mem_cons_self _ _) hs
        · rintro ⟨hs, he⟩
          exact Or.inl (Option.some.inj he).symm
      · rw [List.find?_cons_of_neg _ (by simp [hdate])]
        constructor
        · rintro (rfl | ⟨hs, hfind⟩)
          · exact absurd rfl hdate
          · exact ⟨fun h => hs (List.mem_cons_of_mem _ h), hfind⟩
        · rintro ⟨hs, hfind⟩
          refine Or.inr ⟨?_, hfind⟩
          intro h
          rcases List.mem_cons.mp h with heq | h
          · exact hdate heq.symm
          · exact hs h

theorem mem_remove_duplicate_events {l : List EventReason} {er : EventReason} :
    er ∈ remove_duplicate_events l ↔
      l.find? (fun x => x.event_date == er.event_date) = some er := by
  rw [remove_duplicate_events, mem_remove_duplicate_events_aux]
  simp

/-- **C4**: `remove_duplicate_events` deduplicates by `event_date` only:
the output is a subsequence of the input with pairwise-distinct event
dates, and an entry is in the output exactly when it is the first entry of
the input carrying its `event_date` (so every later entry with that date,
even with a different name, is discarded). -/
theorem c4_remove_duplicate_events_dedup_by_date (l : List EventReason) :
    (remove_duplicate_events l).Sublist l ∧
    ((remove_duplicate_events l).map (fun er => er.event_date)).Nodup ∧
    (∀ er : EventReason, er ∈ remove_duplicate_events l ↔
      l.find? (fun x => x.event_date == er.event_date) = some er) :=
  ⟨remove_duplicate_events_aux_sublist [] l,
   (remove_duplicate_events_aux_dates_nodup [] l).1,
   fun _ => mem_remove_duplicate_events⟩

/-! ### C8: the attendance filter -/

theorem get_employee_attendance_data_eq_filter (record_id : Nat)
    (data : List AttendanceRow) (year : Nat) :
    get_employee_attendance_data record_id data year =
      data.filter (fun r => r.employee_record_id == record_id && r.date.year == year) := by
  induction data with
  | nil => rfl
  | cons r rest ih =>
    simp only [get_employee_attendance_data, check_if_date_is_in_year, List.filter_cons, ih]
    by_cases h1 : r.employee_record_id == record_id <;>
      by_cases h2 : r.date.year == year <;>
        simp [h1, h2]

/-- **C8**: `get_employee_attendance_data` returns exactly the attendance
rows whose `employee_record_id` equals the given id and whose date's year
equals the target year (exact equality), in the original order (the result
is the order-preserving filter of the input, hence a subsequence). -/
theorem c8_get_employee_attendance_data_exact_filter (record_id : Nat)
    (data : List AttendanceRow) (year : Nat) :
    get_employee_attendance_data record_id data year =
      data.filter (fun r => r.employee_record_id == record_id && r.date.year == year) ∧
    (get_employee_attendance_data record_id data year).Sublist data :=
  ⟨get_employee_attendance_data_eq_filter record_id data year,
   (get_employee_attendance_data_eq_filter record_id data year) ▸ List.filter_sublist data⟩

/-! ### C1 and C10: delinquency classification -/

/-- The delinquency classification of a single row, as described by the
spec: fully absent, or late arrival, or early departure. -/
def delinquentRow (r : AttendanceRow) : Bool :=
  (r.clock_in.isNone && r.clock_out.isNone) ||
    (match r.clock_in, r.clock_out with
     | some ci, some co => decide (timeOfHMS 8 15 0 < ci) || decide (co < timeOfHMS 16 0 0)
     | _, _ => false)

theorem check_employee_times_eq_filter (rows : List AttendanceRow)
    (h : ∀ r ∈ rows, (r.clock_in.isSome ∧ r.clock_out.isSome) ∨
      (r.clock_in.isNone ∧ r.clock_out.isNone)) :
    check_employee_times rows =
      some ((rows.filter (fun r =>
        (r.clock_in.isNone && r.clock_out.isNone) ||
          (match r.clock_in, r.clock_out with
           | some ci, some co => decide (timeOfHMS 8 15 0 < ci) || decide (co < timeOfHMS 16 0 0)
           | _, _ => false))).map (fun r => r.date)) := by
  induction rows with
  | nil => rfl
  | cons r rest ih =>
    have hr := h r (List.mem_cons_self r rest)
    have hrest := fun x hx => h x (List.mem_cons_of_mem r hx)
    simp only [check_employee_times, List.filter_cons]
    rcases hr with ⟨h1, h2⟩ | ⟨h1, h2⟩
    · obtain ⟨ci, hci⟩ := Option.isSome_iff_exists.mp h1
      obtain ⟨co, hco⟩ := Option.isSome_iff_exists.mp h2
      rw [hci, hco]
      dsimp only
      by_cases hlate : start_time < ci ∨ co < end_time
      · rw [if_pos hlate, ih hrest]
        have hcond : (decide (timeOfHMS 8 15 0 < ci) || decide (co < timeOfHMS 16 0 0)) = true := by
          rcases hlate with hl | hl <;> simp [start_time, end_time] at hl <;> simp [hl]
        simp [hcond]
      · rw [if_neg hlate, ih hrest]
        push_neg at hlate
        have hc1 : decide (timeOfHMS 8 15 0 < ci) = false := by
          simpa [start_time] using hlate.1
        have hc2 : decide (co < timeOfHMS 16 0 0) = false := by
          simpa [end_time] using hlate.2
        simp [hc1, hc2]
    · rw [Option.isNone_iff_eq_none.mp h1, Option.isNone_iff_eq_none.mp h2, ih hrest]
      simp

/-- **C1**: for attendance rows in which the clock fields are either both
present or both absent, `check_employee_times` succeeds and records
exactly the dates of the rows that are (i) fully absent, or (ii) have
`clock_in` strictly later than 08:15:00 or `clock_out` strictly earlier
than 16:00:00; rows with both times present, `clock_in ≤ 08:15:00` and
`clock_out ≥ 16:00:00` are compliant and contribute nothing. -/
theorem c1_check_employee_times_classification (rows : List AttendanceRow)
    (h : ∀ r ∈ rows, (r.clock_in.isSome ∧ r.clock_out.isSome) ∨
      (r.clock_in.isNone ∧ r.clock_out.isNone)) :
    check_employee_times rows =
      some ((rows.filter (fun r =>
        (r.clock_in.isNone && r.clock_out.isNone) ||
          (match r.clock_in, r.clock_out with
           | some ci, some co => decide (timeOfHMS 8 15 0 < ci) || decide (co < timeOfHMS 16 0 0)
           | _, _ => false))).map (fun r => r.date)) :=
  check_employee_times_eq_filter rows h

/-- Witness for C1 on concrete data: an absent row and a late row are
recorded, a compliant row is not. -/
theorem c1_check_employee_times_classification_witness :
    check_employee_times
        [⟨1, ⟨2023, 3, 6⟩, none, none⟩,
         ⟨1, ⟨2023, 3, 7⟩, some (timeOfHMS 8 0 0), some (timeOfHMS 16 30 0)⟩,
         ⟨1, ⟨2023, 3, 8⟩, some (timeOfHMS 9 0 0), some (timeOfHMS 16 30 0)⟩] =
      some [⟨2023, 3, 6⟩, ⟨2023, 3, 8⟩] := by
  rw [c1_check_employee_times_classification _ (by decide)]
  decide

/-- **C10**: a row with exactly one clock field `null` makes
`check_employee_times` raise while parsing it (`strptime(None, ...)`), so
the whole call fails and no date list is produced. -/
theorem c10_single_null_clock_crashes (rows : List AttendanceRow) (r : AttendanceRow)
    (hr : r ∈ rows)
    (h : (r.clock_in = none ∧ r.clock_out ≠ none) ∨ (r.clock_in ≠ none ∧ r.clock_out = none)) :
    check_employee_times rows = none := by
  induction rows with
  | nil => exact absurd hr (List.not_mem_nil r)
  | cons a rest ih =>
    simp only [check_employee_times]
    rcases List.mem_cons.mp hr with rfl | hr'
    · rcases h with ⟨h1, h2⟩ | ⟨h1, h2⟩
      · obtain ⟨co, hco⟩ := Option.ne_none_iff_exists'.mp h2
        rw [h1, hco]
      · obtain ⟨ci, hci⟩ := Option.ne_none_iff_exists'.mp h1
        rw [hci, h2]
    · have hnone := ih hr'
      rcases hin : a.clock_in with _ | ci <;> rcases hout : a.clock_out with _ | co
      · rw [hnone]; rfl
      · rfl
      · rfl
      · rw [hnone]; dsimp only; split <;> rfl

/-- Witness for C10 on concrete data. -/
theorem c10_single_null_clock_crashes_witness :
    check_employee_times
        [⟨1, ⟨2023, 3, 7⟩, some (timeOfHMS 8 0 0), some (timeOfHMS 16 30 0)⟩,
         ⟨1, ⟨2023, 3, 8⟩, none, some (timeOfHMS 16 30 0)⟩] = none :=
  c10_single_null_clock_crashes _ ⟨1, ⟨2023, 3, 8⟩, none, some (timeOfHMS 16 30 0)⟩
    (by decide) (Or.inl (by decide))

/-! ### C2: weather exclusion -/

/-- **C2**: the severe-weather date set of `check_dates_against_events`
consists exactly of the dates of weather rows matching the employee's
country, with year 2023, and condition in {hail, thunderstorm, blizzard,
hurricane} or `max_temp > 40.0`; and the unexplained delinquent dates are
exactly the delinquent dates minus that set (set difference: a delinquent
date in the set is dropped entirely). -/
theorem contains_iff_mem {α : Type} [DecidableEq α] {l : List α} {x : α} :
    l.contains x = true ↔ x ∈ l := List.elem_iff

theorem c2_weather_exclusion_set_difference (weather_data : List WeatherRow)
    (poor : List Date) (country : String) (d : Date) :
    (d ∈ weather_set weather_data country ↔
      ∃ w ∈ weather_data, w.country = country ∧ w.date = d ∧ w.date.year = 2023 ∧
        (w.condition = "hail" ∨ w.condition = "thunderstorm" ∨ w.condition = "blizzard" ∨
          w.condition = "hurricane" ∨ (40 : ℚ) < w.max_temp)) ∧
    (d ∈ no_weather_excuse_list weather_data poor country ↔
      d ∈ poor ∧ d ∉ weather_set weather_data country) := by
  constructor
  · simp only [weather_set, mem_dedupFirst, List.mem_map, List.mem_filter, isSevereWeather,
      check_if_date_is_in_year, severeConditions, Bool.and_eq_true, Bool.or_eq_true,
      beq_iff_eq, decide_eq_true_eq, contains_iff_mem, List.mem_cons,
      List.not_mem_nil, or_false]
    constructor
    · rintro ⟨w, ⟨⟨hw, ⟨hc, hy⟩, hcond⟩, hd⟩⟩
      exact ⟨w, hw, hc, hd, hy, by tauto⟩
    · rintro ⟨w, hw, hc, hd, hy, hcond⟩
      exact ⟨w, ⟨hw, ⟨hc, hy⟩, by tauto⟩, hd⟩
  · simp only [no_weather_excuse_list, List.mem_filter, mem_dedupFirst,
      Bool.not_eq_true', ← Bool.not_eq_true, contains_iff_mem]

/-! ### C7: division by zero on an employee with no attendance rows -/

/-- **C7**: for an employee whose filtered attendance subset for 2023 is
empty, `calculate_average_hours_per_week` hits `0 / 0`
(`ZeroDivisionError`) instead of returning a value, and since the error is
uncaught the per-employee computation produces no report. -/
theorem c7_zero_attendance_rows_division_by_zero (weather_data : List WeatherRow)
    (events_data : List EventRow) (attendance_data : List AttendanceRow) (employee : Employee)
    (h : get_employee_attendance_data employee.record_id attendance_data 2023 = []) :
    calculate_average_hours_per_week
        (get_employee_attendance_data employee.record_id attendance_data 2023) = none ∧
      processEmployee weather_data events_data attendance_data employee = none := by
  rw [h]
  refine ⟨rfl, ?_⟩
  simp [processEmployee, h, check_employee_times, calculate_average_hours_per_week, weekTable]

/-- Witness for C7 on concrete data (empty attendance file). -/
theorem c7_zero_attendance_rows_division_by_zero_witness :
    calculate_average_hours_per_week (get_employee_attendance_data 1 [] 2023) = none ∧
      processEmployee [] [] [] ⟨1, "a", 2, "b", "US", "c"⟩ = none :=
  c7_zero_attendance_rows_division_by_zero [] [] [] ⟨1, "a", 2, "b", "US", "c"⟩ rfl

/-! ### C5: average hours per week -/

theorem addToWeek_snd_sum (tbl : List (Nat × ℚ)) (k : Nat) (v : ℚ) :
    ((addToWeek tbl k v).map Prod.snd).sum = (tbl.map Prod.snd).sum + v := by
  induction tbl with
  | nil => simp [addToWeek]
  | cons p rest ih =>
    obtain ⟨k', v'⟩ := p
    simp only [addToWeek]
    split
    · simp only [List.map_cons, List.sum_cons]
      ring
    · simp only [List.map_cons, List.sum_cons, ih]
      ring

theorem addToWeek_fst (tbl : List (Nat × ℚ)) (k : Nat) (v : ℚ) :
    (addToWeek tbl k v).map Prod.fst =
      if k ∈ tbl.map Prod.fst then tbl.map Prod.fst else tbl.map Prod.fst ++ [k] := by
  induction tbl with
  | nil => simp [addToWeek]
  | cons p rest ih =>
    obtain ⟨k', v'⟩ := p
    simp only [addToWeek, List.map_cons]
    split
    · rename_i h
      simp [h, List.mem_cons]
    · rename_i h
      simp only [List.map_cons, ih]
      by_cases hk : k ∈ rest.map Prod.fst
      · simp [hk, List.mem_cons]
      · have hkk : ¬ k = k' := fun hh => h hh.symm
        simp [hk, List.mem_cons, hkk]

theorem mem_addToWeek_fst {tbl : List (Nat × ℚ)} {k key : Nat} {v : ℚ} :
    k ∈ (addToWeek tbl key v).map Prod.fst ↔ k ∈ tbl.map Prod.fst ∨ k = key := by
  rw [addToWeek_fst]
  split
  · rename_i h
    constructor
    · exact Or.inl
    · rintro (hm | rfl)
      · exact hm
      · exact h
  · simp [List.mem_append]

theorem foldl_addToWeek_snd_sum (rows : List AttendanceRow) (tbl : List (Nat × ℚ)) :
    (((rows.foldl (fun t a => addToWeek t (isoWeek a.date) (rowDuration a)) tbl).map
        Prod.snd).sum) =
      (tbl.map Prod.snd).sum + (rows.map rowDuration).sum := by
  induction rows generalizing tbl with
  | nil => simp
  | cons a rest ih =>
    simp only [List.foldl_cons, ih, addToWeek_snd_sum, List.map_cons, List.sum_cons]
    ring

theorem foldl_addToWeek_fst_mem (rows : List AttendanceRow) (tbl : List (Nat × ℚ)) (k : Nat) :
    (k ∈ ((rows.foldl (fun t a => addToWeek t (isoWeek a.date) (rowDuration a)) tbl).map
        Prod.fst)) ↔
      k ∈ tbl.map Prod.fst ∨ k ∈ rows.map (fun a => isoWeek a.date) := by
  induction rows generalizing tbl with
  | nil => simp
  | cons a rest ih =>
    simp only [List.foldl_cons, ih, mem_addToWeek_fst, List.map_cons, List.mem_cons]
    tauto

theorem foldl_addToWeek_fst_nodup (rows : List AttendanceRow) (tbl : List (Nat × ℚ))
    (h : (tbl.map Prod.fst).Nodup) :
    (((rows.foldl (fun t a => addToWeek t (isoWeek a.date) (rowDuration a)) tbl).map
        Prod.fst)).Nodup := by
  induction rows generalizing tbl with
  | nil => exact h
  | cons a rest ih =>
    simp only [List.foldl_cons]
    refine ih _ ?_
    rw [addToWeek_fst]
    split
    · exact h
    · rename_i hk
      refine h.append (List.nodup_singleton _) ?_
      intro x hx hx'
      rw [List.mem_singleton] at hx'
      exact hk (hx' ▸ hx)

theorem weekTable_snd_sum (rows : List AttendanceRow) :
    ((weekTable rows).map Prod.snd).sum = (rows.map rowDuration).sum := by
  rw [weekTable, foldl_addToWeek_snd_sum]
  simp

theorem weekTable_length (rows : List AttendanceRow) :
    (weekTable rows).length = (rows.map (fun a => isoWeek a.date)).toFinset.card := by
  have hnd : ((weekTable rows).map Prod.fst).Nodup :=
    foldl_addToWeek_fst_nodup rows [] (by simp)
  have hlen : (weekTable rows).length = ((weekTable rows).map Prod.fst).length :=
    (List.length_map _ _).symm
  rw [hlen, ← List.toFinset_card_of_nodup hnd]
  congr 1
  ext k
  simp only [List.mem_toFinset]
  rw [weekTable, foldl_addToWeek_fst_mem]
  simp

theorem weekTable_length_ne_zero {attendance_data : List AttendanceRow}
    (h : attendance_data ≠ []) : (weekTable attendance_data).length ≠ 0 := by
  obtain ⟨a, rest, rfl⟩ := List.exists_cons_of_ne_nil h
  intro h0
  have hmem : isoWeek a.date ∈ (weekTable (a :: rest)).map Prod.fst := by
    rw [weekTable, foldl_addToWeek_fst_mem]
    simp
  rw [List.eq_nil_of_length_eq_zero h0] at hmem
  simp at hmem

/-- **C5**: on a non-empty attendance subset,
`calculate_average_hours_per_week` returns the sum over rows of the row's
duration (clocked hours when both clock fields are present, `0`
otherwise) divided by the number of distinct ISO calendar week numbers
among the rows' dates; weeks with no rows contribute neither hours nor a
denominator count. -/
theorem c5_calculate_average_hours_per_week (attendance_data : List AttendanceRow)
    (h : attendance_data ≠ []) :
    calculate_average_hours_per_week attendance_data =
      some ((attendance_data.map (fun r =>
          match r.clock_in, r.clock_out with
          | some ci, some co => ((co : ℚ) - (ci : ℚ)) / 3600
          | _, _ => 0)).sum /
        ((attendance_data.map (fun r => isoWeek r.date)).toFinset.card : ℚ)) := by
  have hne : (weekTable attendance_data).length ≠ 0 := weekTable_length_ne_zero h
  rw [calculate_average_hours_per_week]
  simp only [if_neg hne]
  rw [weekTable_snd_sum, weekTable_length]
  have hmap : attendance_data.map rowDuration =
      attendance_data.map (fun r =>
        match r.clock_in, r.clock_out with
        | some ci, some co => ((co : ℚ) - (ci : ℚ)) / 3600
        | _, _ => 0) := by
    refine List.map_congr_left (fun r _ => ?_)
    rw [rowDuration]
    rcases r.clock_in with _ | ci <;> rcases r.clock_out with _ | co <;> rfl
  rw [hmap]

/-- Witness for C5 on concrete data: two rows in ISO week 10 of 2023 and
one in week 11, with one absent day; total 16 hours over 2 distinct
weeks. -/
theorem c5_calculate_average_hours_per_week_witness :
    calculate_average_hours_per_week
        [⟨1, ⟨2023, 3, 6⟩, some (timeOfHMS 8 0 0), some (timeOfHMS 16 30 0)⟩,
         ⟨1, ⟨2023, 3, 7⟩, none, none⟩,
         ⟨1, ⟨2023, 3, 13⟩, some (timeOfHMS 8 30 0), some (timeOfHMS 16 0 0)⟩] =
      some 8 := by
  rw [c5_calculate_average_hours_per_week _ (by decide)]
  dsimp only [List.map_cons, List.map_nil]
  rw [show isoWeek ⟨2023, 3, 6⟩ = 10 from by decide,
      show isoWeek ⟨2023, 3, 7⟩ = 10 from by decide,
      show isoWeek ⟨2023, 3, 13⟩ = 11 from by decide,
      show ([10, 10, 11] : List Nat).toFinset.card = 2 from by decide]
  norm_num [timeOfHMS, List.sum_cons, List.sum_nil]

/-! ### Calendar arithmetic lemmas (for the ±1-day event window) -/

/-- The Gregorian leap condition as a proposition. -/
def leapCond (y : Nat) : Prop := y % 4 = 0 ∧ (y % 100 ≠ 0 ∨ y % 400 = 0)

instance : DecidablePred leapCond := fun y => by
  unfold leapCond; infer_instance

theorem isLeap_iff (y : Nat) : isLeap y = true ↔ leapCond y := by
  simp [isLeap, leapCond, Bool.and_eq_true, Bool.or_eq_true, beq_iff_eq, bne_iff_ne]

/-- The year part of `toOrdinal`. -/
def yearDays (y : Nat) : Nat := 365 * y + y / 4 - y / 100 + y / 400

/-- The month part of `toOrdinal` (shifted month: March is `0`). -/
def monthDays (m : Nat) : Nat := (153 * m + 2) / 5

theorem toOrdinal_eq (d : Date) :
    toOrdinal d =
      yearDays (if d.month ≤ 2 then d.year - 1 else d.year) +
        monthDays (if d.month ≤ 2 then d.month + 9 else d.month - 3) + d.day - 1 := rfl

theorem div4_succ (y : Nat) : (y + 1) / 4 = y / 4 + (if (y + 1) % 4 = 0 then 1 else 0) := by
  by_cases h : (y + 1) % 4 = 0
  · rw [if_pos h]; omega
  · rw [if_neg h]; omega

theorem div100_succ (y : Nat) :
    (y + 1) / 100 = y / 100 + (if (y + 1) % 100 = 0 then 1 else 0) := by
  by_cases h : (y + 1) % 100 = 0
  · rw [if_pos h]; omega
  · rw [if_neg h]; omega

theorem div400_succ (y : Nat) :
    (y + 1) / 400 = y / 400 + (if (y + 1) % 400 = 0 then 1 else 0) := by
  by_cases h : (y + 1) % 400 = 0
  · rw [if_pos h]; omega
  · rw [if_neg h]; omega

theorem yearDays_succ (y : Nat) :
    yearDays (y + 1) = yearDays y + 365 + (if leapCond (y + 1) then 1 else 0) := by
  unfold yearDays
  rw [div4_succ, div100_succ, div400_succ]
  by_cases h4 : (y + 1) % 4 = 0 <;> by_cases h100 : (y + 1) % 100 = 0 <;>
    by_cases h400 : (y + 1) % 400 = 0
  · rw [if_pos (show leapCond (y + 1) from ⟨h4, Or.inr h400⟩),
      if_pos h4, if_pos h100, if_pos h400]
    omega
  · rw [if_neg (show ¬ leapCond (y + 1) by
        rintro ⟨_, hne | h4'⟩
        · exact hne h100
        · exact h400 h4'),
      if_pos h4, if_pos h100, if_neg h400]
    omega
  · exact absurd (by omega : (y + 1) % 100 = 0) h100
  · rw [if_pos (show leapCond (y + 1) from ⟨h4, Or.inl h100⟩),
      if_pos h4, if_neg h100, if_neg h400]
    omega
  · exact absurd (by omega : (y + 1) % 4 = 0) h4
  · exact absurd (by omega : (y + 1) % 4 = 0) h4
  · exact absurd (by omega : (y + 1) % 4 = 0) h4
  · rw [if_neg (show ¬ leapCond (y + 1) from fun hc => h4 hc.1),
      if_neg h4, if_neg h100, if_neg h400]
    omega

theorem yearDays_mono {y1 y2 : Nat} (h : y1 ≤ y2) : yearDays y1 ≤ yearDays y2 := by
  induction y2 with
  | zero => exact Nat.le_zero.mp h ▸ le_rfl
  | succ n ih =>
    rcases Nat.lt_or_ge y1 (n + 1) with h' | h'
    · refine (ih (Nat.lt_succ_iff.mp h')).trans ?_
      have hs := yearDays_succ n
      by_cases hc : leapCond (n + 1)
      · rw [if_pos hc] at hs; omega
      · rw [if_neg hc] at hs; omega
    · exact le_of_eq (congrArg yearDays (Nat.le_antisymm h h'))

theorem yearDays_pred {y : Nat} (h : 1 ≤ y) :
    yearDays y = yearDays (y - 1) + 365 + (if leapCond y then 1 else 0) := by
  obtain ⟨n, rfl⟩ : ∃ n, y = n + 1 := ⟨y - 1, by omega⟩
  simpa using yearDays_succ n

theorem yearDays_gap {u v : Nat} (h : u < v) :
    yearDays u + 365 + (if leapCond (u + 1) then 1 else 0) ≤ yearDays v := by
  have h1 := yearDays_succ u
  have h2 := yearDays_mono (show u + 1 ≤ v from h)
  by_cases hc : leapCond (u + 1)
  · rw [if_pos hc] at h1 ⊢; omega
  · rw [if_neg hc] at h1 ⊢; omega

theorem daysInMonth_two (y : Nat) : daysInMonth y 2 = if leapCond y then 29 else 28 := by
  rw [daysInMonth, if_pos rfl]
  by_cases hc : leapCond y
  · rw [if_pos ((isLeap_iff y).mpr hc), if_pos hc]
  · rw [if_neg hc, if_neg (show ¬ isLeap y = true from fun hL => hc ((isLeap_iff y).mp hL))]

theorem daysInMonth_ne_two {y m : Nat} (h : m ≠ 2) :
    daysInMonth y m = if m = 4 ∨ m = 6 ∨ m = 9 ∨ m = 11 then 30 else 31 := by
  rw [daysInMonth, if_neg h]

/-- Bounds on a valid day number, phrased without `if`, suitable for
linear arithmetic. -/
theorem daysInMonth_bounds (y m day : Nat) (h : day ≤ daysInMonth y m) :
    day ≤ 31 ∧
      (m = 2 → day ≤ 29 ∧ (¬(y % 4 = 0 ∧ (y % 100 ≠ 0 ∨ y % 400 = 0)) → day ≤ 28)) ∧
      ((m = 4 ∨ m = 6 ∨ m = 9 ∨ m = 11) → day ≤ 30) := by
  rw [daysInMonth] at h
  by_cases h2 : m = 2
  · rw [if_pos h2] at h
    by_cases hL : isLeap y = true
    · have hc := (isLeap_iff y).mp hL
      rw [if_pos hL] at h
      unfold leapCond at hc
      exact ⟨by omega, fun _ => ⟨h, fun hn => absurd hc hn⟩, fun hm => by omega⟩
    · rw [if_neg hL] at h
      exact ⟨by omega, fun _ => ⟨by omega, fun _ => h⟩, fun hm => by omega⟩
  · rw [if_neg h2] at h
    split at h
    · rename_i hm4
      exact ⟨by omega, fun hm => absurd hm h2, fun _ => h⟩
    · rename_i hm4
      exact ⟨h, fun hm => absurd hm h2, fun hm => absurd hm hm4⟩

theorem daysInMonth_pos (y m : Nat) : 1 ≤ daysInMonth y m := by
  rw [daysInMonth]
  split
  · split <;> omega
  · split <;> omega

theorem validDate_nextDay {d : Date} (h : ValidDate d) : ValidDate (nextDay d) := by
  obtain ⟨y, m, dy⟩ := d
  obtain ⟨hy, hm1, hm2, hd1, hd2⟩ := h
  rw [nextDay]
  dsimp only at *
  split
  · refine ⟨hy, hm1, hm2, ?_, ?_⟩ <;> dsimp only <;> omega
  · split
    · refine ⟨?_, ?_, ?_, ?_, ?_⟩ <;> dsimp only
      · exact hy
      · omega
      · rename_i hlt hm12; omega
      · exact le_rfl
      · exact daysInMonth_pos _ _
    · refine ⟨?_, ?_, ?_, ?_, ?_⟩ <;> dsimp only
      · omega
      · omega
      · omega
      · exact le_rfl
      · exact daysInMonth_pos _ _

theorem toOrdinal_nextDay {d : Date} (h : ValidDate d) :
    toOrdinal (nextDay d) = toOrdinal d + 1 := by
  obtain ⟨y, m, dy⟩ := d
  obtain ⟨hy, hm1, hm2, hd1, hd2⟩ := h
  dsimp only at *
  rw [nextDay]
  dsimp only
  by_cases hlt : dy < daysInMonth y m
  · -- no rollover: same year and month, next day
    rw [if_pos hlt]
    rw [toOrdinal_eq, toOrdinal_eq]
    dsimp only
    by_cases h2 : m ≤ 2
    · simp only [if_pos h2]
      omega
    · simp only [if_neg h2]
      omega
  · have hdy : dy = daysInMonth y m := by omega
    rw [if_neg hlt]
    by_cases hm12 : m < 12
    · rw [if_pos hm12]
      by_cases h2 : m = 2
      · -- February → March 1: the year part of the shifted calendar steps
        subst h2
        rw [daysInMonth_two] at hdy
        rw [toOrdinal_eq, toOrdinal_eq]
        dsimp only
        simp only [if_neg (by omega : ¬ (2 + 1 : Nat) ≤ 2),
          if_pos (by omega : (2 : Nat) ≤ 2)]
        rw [yearDays_pred hy]
        by_cases hc : leapCond y
        · rw [if_pos hc] at hdy ⊢
          subst hdy
          unfold monthDays
          omega
        · rw [if_neg hc] at hdy ⊢
          subst hdy
          unfold monthDays
          omega
      · -- rollover to the next month within the same shifted year
        rw [daysInMonth_ne_two h2] at hdy
        rw [toOrdinal_eq, toOrdinal_eq]
        dsimp only
        by_cases ha2 : m ≤ 2
        · -- m = 1 (January → February)
          have hm1' : m = 1 := by omega
          subst hm1'
          simp only [if_pos (by omega : (1 + 1 : Nat) ≤ 2),
            if_pos (by omega : (1 : Nat) ≤ 2)]
          rw [if_neg (by omega : ¬ ((1 : Nat) = 4 ∨ (1 : Nat) = 6 ∨ (1 : Nat) = 9 ∨
            (1 : Nat) = 11))] at hdy
          subst hdy
          unfold monthDays
          omega
        · -- 3 ≤ m ≤ 11
          simp only [if_neg (show ¬ m + 1 ≤ 2 by omega), if_neg ha2]
          by_cases hm30 : m = 4 ∨ m = 6 ∨ m = 9 ∨ m = 11
          · rw [if_pos hm30] at hdy
            subst hdy
            rcases hm30 with rfl | rfl | rfl | rfl <;> (unfold monthDays; omega)
          · rw [if_neg hm30] at hdy
            subst hdy
            have hmv : m = 3 ∨ m = 5 ∨ m = 7 ∨ m = 8 ∨ m = 10 ∨ m = 11 := by omega
            rcases hmv with rfl | rfl | rfl | rfl | rfl | rfl <;> (unfold monthDays; omega)
    · -- December 31 → January 1 of the next year
      have hm' : m = 12 := by omega
      subst hm'
      rw [if_neg hm12]
      rw [daysInMonth_ne_two (by omega)] at hdy
      rw [if_neg (by omega : ¬ ((12 : Nat) = 4 ∨ (12 : Nat) = 6 ∨ (12 : Nat) = 9 ∨
        (12 : Nat) = 11))] at hdy
      subst hdy
      rw [toOrdinal_eq, toOrdinal_eq]
      dsimp only
      simp only [if_pos (by omega : (1 : Nat) ≤ 2), if_neg (by omega : ¬ (12 : Nat) ≤ 2)]
      simp only [Nat.add_sub_cancel]
      unfold monthDays
      omega

/-- For a month from March to December, the day count added to the shifted
month offset stays below the next month's offset. -/
theorem day_add_monthDays_le {y m da : Nat} (hm3 : 3 ≤ m) (hm12 : m ≤ 12)
    (hda : da ≤ daysInMonth y m) :
    (153 * (m - 3) + 2) / 5 + da ≤ (153 * (m - 2) + 2) / 5 := by
  have hmv : m = 3 ∨ m = 4 ∨ m = 5 ∨ m = 6 ∨ m = 7 ∨ m = 8 ∨ m = 9 ∨ m = 10 ∨
      m = 11 ∨ m = 12 := by omega
  rcases hmv with rfl | rfl | rfl | rfl | rfl | rfl | rfl | rfl | rfl | rfl <;>
    (rw [daysInMonth_ne_two (by omega)] at hda <;> simp at hda <;> omega)

theorem toOrdinal_lt_of_lt {a b : Date} (ha : ValidDate a) (hb : ValidDate b)
    (h : a.year < b.year ∨ (a.year = b.year ∧
      (a.month < b.month ∨ (a.month = b.month ∧ a.day < b.day)))) :
    toOrdinal a < toOrdinal b := by
  obtain ⟨ya, ma, da⟩ := a
  obtain ⟨yb, mb, db⟩ := b
  obtain ⟨hya, hma1, hma2, hda1, hda2⟩ := ha
  obtain ⟨hyb, hmb1, hmb2, hdb1, hdb2⟩ := hb
  dsimp only at *
  rw [toOrdinal_eq, toOrdinal_eq]
  dsimp only
  unfold monthDays
  by_cases ha2 : ma ≤ 2 <;> by_cases hb2 : mb ≤ 2
  · -- both dates in January or February: shifted years are ya-1, yb-1
    simp only [if_pos ha2, if_pos hb2]
    have hma' : ma = 1 ∨ ma = 2 := by omega
    rcases h with hlt | ⟨heq, hmon⟩
    · have e : ya - 1 + 1 = ya := by omega
      have f := yearDays_gap (show ya - 1 < yb - 1 by omega)
      rw [e] at f
      rcases hma' with rfl | rfl
      · have h31 := (daysInMonth_bounds ya 1 da hda2).1
        by_cases hc : leapCond ya <;> [rw [if_pos hc] at f; rw [if_neg hc] at f] <;> omega
      · have hfeb := (daysInMonth_bounds ya 2 da hda2).2.1 rfl
        by_cases hc : leapCond ya <;> [rw [if_pos hc] at f; rw [if_neg hc] at f] <;>
          unfold leapCond at hc <;> omega
    · subst heq
      have h31 := (daysInMonth_bounds ya ma da hda2).1
      have hmb' : mb = 1 ∨ mb = 2 := by omega
      rcases hmon with hmm | ⟨heqm, hdd⟩
      · rcases hma' with rfl | rfl <;> rcases hmb' with rfl | rfl <;> omega
      · subst heqm
        omega
  · -- a in Jan/Feb, b in Mar..Dec: shifted years are ya-1 and yb with ya ≤ yb
    simp only [if_pos ha2, if_neg hb2]
    have e : ya - 1 + 1 = ya := by omega
    have f := yearDays_gap (show ya - 1 < yb by omega)
    rw [e] at f
    have hma' : ma = 1 ∨ ma = 2 := by omega
    rcases hma' with rfl | rfl
    · have h31 := (daysInMonth_bounds ya 1 da hda2).1
      by_cases hc : leapCond ya <;> [rw [if_pos hc] at f; rw [if_neg hc] at f] <;> omega
    · have hfeb := (daysInMonth_bounds ya 2 da hda2).2.1 rfl
      by_cases hc : leapCond ya <;> [rw [if_pos hc] at f; rw [if_neg hc] at f] <;>
        unfold leapCond at hc <;> omega
  · -- a in Mar..Dec, b in Jan/Feb: requires ya < yb
    simp only [if_neg ha2, if_pos hb2]
    have hgap := day_add_monthDays_le (by omega) hma2 hda2
    have hGm : (153 * (ma - 2) + 2) / 5 ≤ (153 * (mb + 9) + 2) / 5 := by omega
    by_cases hyy : yb = ya + 1
    · subst hyy
      simp only [Nat.add_sub_cancel]
      omega
    · have f := yearDays_gap (show ya < yb - 1 by omega)
      by_cases hc : leapCond (ya + 1) <;> [rw [if_pos hc] at f; rw [if_neg hc] at f] <;>
        omega
  · -- both dates in Mar..Dec
    simp only [if_neg ha2, if_neg hb2]
    have hgap := day_add_monthDays_le (by omega) hma2 hda2
    rcases h with hlt | ⟨heq, hmon⟩
    · have hG337 : (153 * (ma - 2) + 2) / 5 ≤ 337 := by omega
      have f := yearDays_gap hlt
      by_cases hc : leapCond (ya + 1) <;> [rw [if_pos hc] at f; rw [if_neg hc] at f] <;>
        omega
    · subst heq
      rcases hmon with hmm | ⟨heqm, hdd⟩
      · have hGm : (153 * (ma - 2) + 2) / 5 ≤ (153 * (mb - 3) + 2) / 5 := by omega
        omega
      · subst heqm
        omega

theorem toOrdinal_inj {a b : Date} (ha : ValidDate a) (hb : ValidDate b)
    (h : toOrdinal a = toOrdinal b) : a = b := by
  by_contra hne
  rcases Nat.lt_trichotomy a.year b.year with h1 | h1 | h1
  · exact absurd h (Nat.ne_of_lt (toOrdinal_lt_of_lt ha hb (Or.inl h1)))
  · rcases Nat.lt_trichotomy a.month b.month with h2 | h2 | h2
    · exact absurd h (Nat.ne_of_lt (toOrdinal_lt_of_lt ha hb (Or.inr ⟨h1, Or.inl h2⟩)))
    · rcases Nat.lt_trichotomy a.day b.day with h3 | h3 | h3
      · exact absurd h
          (Nat.ne_of_lt (toOrdinal_lt_of_lt ha hb (Or.inr ⟨h1, Or.inr ⟨h2, h3⟩⟩)))
      · refine hne ?_
        obtain ⟨ya, ma, da⟩ := a
        obtain ⟨yb, mb, db⟩ := b
        dsimp only at h1 h2 h3
        rw [h1, h2, h3]
      · exact absurd h.symm
          (Nat.ne_of_lt (toOrdinal_lt_of_lt hb ha (Or.inr ⟨h1.symm, Or.inr ⟨h2.symm, h3⟩⟩)))
    · exact absurd h.symm
        (Nat.ne_of_lt (toOrdinal_lt_of_lt hb ha (Or.inr ⟨h1.symm, Or.inl h2⟩)))
  · exact absurd h.symm (Nat.ne_of_lt (toOrdinal_lt_of_lt hb ha (Or.inl h1)))

/-! ### C3: the ±1-day event window -/

theorem mem_candidatesFor {events : List (Date × String)} {country event_name : String}
    {D E : Date} :
    (⟨country, event_name, E⟩ : EventReason) ∈ candidatesFor events country D ↔
      (E, event_name) ∈ events ∧ inWindow E D = true := by
  simp only [candidatesFor, List.mem_filterMap]
  constructor
  · rintro ⟨⟨e, n⟩, hmem, hif⟩
    dsimp only at hif
    by_cases hw : inWindow e D = true
    · rw [if_pos hw] at hif
      obtain ⟨-, hn, he⟩ := EventReason.mk.injEq _ _ _ _ _ _ ▸ Option.some.inj hif
      subst hn
      subst he
      exact ⟨hmem, hw⟩
    · rw [if_neg hw] at hif
      exact absurd hif (Option.noConfusion)
  · rintro ⟨hmem, hw⟩
    exact ⟨(E, event_name), hmem, by rw [if_pos hw]⟩

theorem inWindow_iff {E D : Date} :
    inWindow E D = true ↔
      (dateDiff E D = -1 ∨ dateDiff E D = 0 ∨ dateDiff E D = 1) := by
  simp [inWindow, Bool.or_eq_true, beq_iff_eq, or_assoc]

/-- The source's timedelta window {-1, 0, 1} holds exactly for the same
day, the next day, and the previous day. -/
theorem inWindow_iff_adjacent {D E : Date} (hD : ValidDate D) (hE : ValidDate E) :
    inWindow E D = true ↔ (E = D ∨ E = nextDay D ∨ D = nextDay E) := by
  rw [inWindow_iff]
  constructor
  · rintro (h | h | h)
    · refine Or.inr (Or.inr (toOrdinal_inj hD (validDate_nextDay hE) ?_))
      rw [toOrdinal_nextDay hE]
      unfold dateDiff at h
      omega
    · refine Or.inl (toOrdinal_inj hE hD ?_)
      unfold dateDiff at h
      omega
    · refine Or.inr (Or.inl (toOrdinal_inj hE (validDate_nextDay hD) ?_))
      rw [toOrdinal_nextDay hD]
      unfold dateDiff at h
      omega
  · rintro (rfl | rfl | rfl)
    · right; left
      unfold dateDiff
      omega
    · right; right
      unfold dateDiff
      rw [toOrdinal_nextDay hD]
      omega
    · left
      unfold dateDiff
      rw [toOrdinal_nextDay hE]
      omega

/-- **C3**: for an unexplained delinquent date `D` and a qualifying event
`(E, name)` of the employee's country in 2023, the event-correlation loop
of `check_dates_against_events` emits the candidate
`{country, event_name, event_date := E}` during `D`'s iteration exactly
when `E` is `D` itself, the day after `D`, or the day before `D`; an event
two days away from `D` is never emitted for `D`.  The full
pre-deduplication candidate list is the union of these per-date
emissions over the unexplained delinquent dates. -/
theorem c3_event_window_three_days (weather_data : List WeatherRow)
    (events_data : List EventRow) (poor : List Date) (country event_name : String)
    (D E : Date) (hD : D ∈ no_weather_excuse_list weather_data poor country)
    (hDv : ValidDate D) (hEv : ValidDate E) :
    ((⟨country, event_name, E⟩ : EventReason) ∈
        candidatesFor (event_set events_data country) country D ↔
      ((E, event_name) ∈ event_set events_data country ∧
        (E = D ∨ E = nextDay D ∨ D = nextDay E))) ∧
    ((E = nextDay (nextDay D) ∨ D = nextDay (nextDay E)) →
      (⟨country, event_name, E⟩ : EventReason) ∉
        candidatesFor (event_set events_data country) country D) ∧
    (∀ er : EventReason, er ∈ event_reason_list weather_data events_data poor country ↔
      ∃ D' ∈ no_weather_excuse_list weather_data poor country,
        er ∈ candidatesFor (event_set events_data country) country D') := by
  refine ⟨by rw [mem_candidatesFor, inWindow_iff_adjacent hDv hEv], ?_, ?_⟩
  · rintro (rfl | hDE) hmem
    · have hw := (mem_candidatesFor.mp hmem).2
      rw [inWindow_iff] at hw
      unfold dateDiff at hw
      have h1 := toOrdinal_nextDay hDv
      have h2 := toOrdinal_nextDay (validDate_nextDay hDv)
      omega
    · have hw := (mem_candidatesFor.mp hmem).2
      rw [inWindow_iff] at hw
      unfold dateDiff at hw
      have h1 := toOrdinal_nextDay hEv
      have h2 := toOrdinal_nextDay (validDate_nextDay hEv)
      rw [← hDE] at h2
      omega
  · intro er
    simp [event_reason_list, List.mem_flatMap]

/-- Witness for C3 on concrete data: the event the day after the
delinquent date is emitted. -/
theorem c3_event_window_three_days_witness :
    (⟨"US", "Fair", ⟨2023, 6, 6⟩⟩ : EventReason) ∈
      candidatesFor (event_set [⟨"US", ⟨2023, 6, 6⟩, "Fair"⟩] "US") "US" ⟨2023, 6, 5⟩ :=
  ((c3_event_window_three_days [] [⟨"US", ⟨2023, 6, 6⟩, "Fair"⟩] [⟨2023, 6, 5⟩] "US" "Fair"
      ⟨2023, 6, 5⟩ ⟨2023, 6, 6⟩ (by decide) (by decide) (by decide)).1).mpr
    ⟨by decide, Or.inr (Or.inl (by decide))⟩

/-! ### C6: the strictly-greater-than-3 threshold -/

/-- The report option produced for one employee, written with `getD`
so that it is defined whether or not the employee's computation raised. -/
def employeeContribution (weather_data : List WeatherRow) (events_data : List EventRow)
    (attendance_data : List AttendanceRow) (employee : Employee) : Option WaywardReport :=
  let att := get_employee_attendance_data employee.record_id attendance_data 2023
  let xref := check_dates_against_events weather_data events_data
    ((check_employee_times att).getD []) employee.country
  if 3 < xref.length then
    some (mkReport employee ((calculate_average_hours_per_week att).getD 0) xref)
  else none

theorem processEmployee_eq_of_isSome {weather_data : List WeatherRow}
    {events_data : List EventRow} {attendance_data : List AttendanceRow}
    {employee : Employee}
    (h : (processEmployee weather_data events_data attendance_data employee).isSome) :
    processEmployee weather_data events_data attendance_data employee =
      some (employeeContribution weather_data events_data attendance_data employee) := by
  rw [processEmployee] at h ⊢
  rcases hct : check_employee_times
      (get_employee_attendance_data employee.record_id attendance_data 2023) with _ | poor
  · rw [hct] at h
    simp only [Option.bind_eq_bind, Option.none_bind, Option.isSome_none] at h
    exact Bool.noConfusion h
  · rcases hav : calculate_average_hours_per_week
        (get_employee_attendance_data employee.record_id attendance_data 2023) with _ | avg
    · rw [hct, hav] at h
      simp only [Option.bind_eq_bind, Option.some_bind, Option.none_bind,
        Option.isSome_none] at h
      exact Bool.noConfusion h
    · rw [employeeContribution]
      simp only [hct, hav, Option.getD_some, Option.bind_eq_bind, Option.some_bind]
      rfl

/-- **C6**: the hand-rolled pipeline completes with output `out` exactly
when no employee's computation raises, and then `out` contains exactly one
full report (identity fields, average, events) for each employee whose
deduplicated qualifying-event count is strictly greater than 3, in roster
order; an employee with 3 or fewer qualifying events contributes
nothing. -/
theorem c6_wayward_employee_threshold (weather_data : List WeatherRow)
    (events_data : List EventRow) (employee_data : List Employee)
    (attendance_data : List AttendanceRow) (out : List WaywardReport) :
    identify_delinquent_employees weather_data events_data employee_data attendance_data =
        some out ↔
      ((∀ employee ∈ employee_data,
          (processEmployee weather_data events_data attendance_data employee).isSome) ∧
        out = employee_data.filterMap
          (employeeContribution weather_data events_data attendance_data)) := by
  induction employee_data generalizing out with
  | nil =>
    rw [identify_delinquent_employees]
    constructor
    · intro h
      exact ⟨by simp, by simpa using (Option.some.inj h).symm⟩
    · rintro ⟨-, hout⟩
      simp [hout]
  | cons employee rest ih =>
    rw [identify_delinquent_employees]
    rcases hp : processEmployee weather_data events_data attendance_data employee with _ | r
    · constructor
      · intro h
        simp only [Option.bind_eq_bind, Option.none_bind] at h
        exact Option.noConfusion h
      · rintro ⟨hall, -⟩
        have hs := hall employee (List.mem_cons_self _ _)
        rw [hp] at hs
        simp at hs
    · have hr : r = employeeContribution weather_data events_data attendance_data employee :=
        Option.some.inj ((hp.symm.trans (processEmployee_eq_of_isSome (by rw [hp]; rfl))))
      rcases hq : identify_delinquent_employees weather_data events_data rest
          attendance_data with _ | l
      · constructor
        · intro h
          simp only [Option.bind_eq_bind, Option.some_bind, Option.none_bind] at h
          exact Option.noConfusion h
        · rintro ⟨hall, -⟩
          have : identify_delinquent_employees weather_data events_data rest
              attendance_data = some (rest.filterMap
                (employeeContribution weather_data events_data attendance_data)) :=
            (ih _).mpr ⟨fun x hx => hall x (List.mem_cons_of_mem _ hx), rfl⟩
          rw [hq] at this
          exact Option.noConfusion this
      · have hrest := (ih l).mp hq
        constructor
        · intro h
          simp only [Option.bind_eq_bind, Option.some_bind] at h
          have hout : out = r.toList ++ l := (Option.some.inj h).symm
          refine ⟨?_, ?_⟩
          · intro x hx
            rcases List.mem_cons.mp hx with rfl | hx
            · rw [hp]; rfl
            · exact (ih l).mp hq |>.1 x hx
          · rw [hout, List.filterMap_cons, hrest.2, hr]
            rcases employeeContribution weather_data events_data attendance_data employee
              with _ | c <;> rfl
        · rintro ⟨hall, hout⟩
          simp only [Option.bind_eq_bind, Option.some_bind]
          rw [hout, List.filterMap_cons, hrest.2, hr]
          rcases employeeContribution weather_data events_data attendance_data employee
            with _ | c <;> rfl

/-! ### C9: comparing the two pipelines -/

end AttendanceReport
